import Mathlib

namespace HousingETL

/-- Calendar year-month value as produced by the pipeline's date casts
(`str.to_date` with formats "%Y-%m" and "%Y"); the day component is always
the first of the month, so it is omitted. -/
structure HDate where
  year : Int
  month : Nat
  deriving DecidableEq, Repr

/-- Ordering on year-month dates, as used by polars `is_between` on the
`month` column (lexicographic on year then month). -/
def HDate.leB (a b : HDate) : Bool :=
  decide (a.year < b.year) || (decide (a.year = b.year) && decide (a.month ≤ b.month))

/-- Base-10 digit-string parser: the common core of the non-strict casts. -/
def parseNatDigits (s : String) : Option Nat :=
  let cs := s.toList
  if !cs.isEmpty && cs.all Char.isDigit then
    some (cs.foldl (fun a c => a * 10 + (c.toNat - 48)) 0)
  else none

/-- Embedding of `pl.col(...).str.to_integer(strict=False)`: parse a base-10
integer (optional leading minus sign), returning null on failure. -/
def strToInteger (s : String) : Option Int :=
  match s.toList with
  | '-' :: rest =>
    (parseNatDigits (String.mk rest)).map (fun n => -(n : Int))
  | _ => (parseNatDigits s).map (fun n => (n : Int))

/-- Split a character list on dashes (the separator of the "%Y-%m"
format). -/
def splitOnDash : List Char → List (List Char)
  | [] => [[]]
  | a :: t =>
    let r := splitOnDash t
    if a = '-' then [] :: r
    else
      match r with
      | [] => [[a]]
      | h :: t2 => (a :: h) :: t2

/-- Embedding of `str.to_date(format="%Y-%m", strict=False)`: a year and a
month number 1..12 separated by a dash, null on failure. -/
def parseYearMonth (s : String) : Option HDate :=
  match (splitOnDash s.toList).map (fun cs => String.mk cs) with
  | [y, m] =>
    match parseNatDigits y, parseNatDigits m with
    | some yv, some mv =>
      if 1 ≤ mv && mv ≤ 12 then some ⟨(yv : Int), mv⟩ else none
    | _, _ => none
  | _ => none

/-- Embedding of `str.to_date(format="%Y", strict=False)`: a year-only date. -/
def parseYear (s : String) : Option HDate :=
  (parseNatDigits s).map (fun yv => (⟨(yv : Int), 1⟩ : HDate))

/-- A raw record: every field of `raw_resale_flat_schema` is text.
`created_datetime` is the timestamp column added by `combine_datasets`
(absent, i.e. `none`, before ingestion), and `stamps` is the trace of the
stages that assigned `created_datetime` to this row (one entry per
`with_columns(pl.lit(datetime.now()).alias("created_datetime"))` executed
on it); `stamps` is bookkeeping for the embedding and is not a column. -/
structure RawRow where
  month : String
  town : String
  flat_type : String
  block : String
  street_name : String
  storey_range : String
  floor_area_sqm : String
  flat_model : String
  lease_commence_date : String
  remaining_lease : String
  resale_price : String
  created_datetime : Option Nat
  stamps : List String
  deriving DecidableEq, Repr

/-- A record after the four non-strict casts of `filter_null_values`:
the cast columns hold null (`none`) where parsing failed. -/
structure CastRow where
  month : Option HDate
  town : String
  flat_type : String
  block : String
  street_name : String
  storey_range : String
  floor_area_sqm : Option Int
  flat_model : String
  lease_commence_date : Option HDate
  remaining_lease : String
  resale_price : Option Int
  created_datetime : Option Nat
  stamps : List String
  deriving DecidableEq, Repr

/-- A fully typed record: all four cast columns parsed successfully. -/
structure TypedRow where
  month : HDate
  town : String
  flat_type : String
  block : String
  street_name : String
  storey_range : String
  floor_area_sqm : Int
  flat_model : String
  lease_commence_date : HDate
  remaining_lease : String
  resale_price : Int
  created_datetime : Option Nat
  stamps : List String
  deriving DecidableEq, Repr

/-- Stamp `created_datetime` on a cast row (one
`with_columns(pl.lit(datetime.now()))` call site, identified by `tag`). -/
def stampC (now : Nat) (tag : String) (r : CastRow) : CastRow :=
  { r with created_datetime := some now, stamps := r.stamps ++ [tag] }

/-- Stamp `created_datetime` on a typed row. -/
def stampT (now : Nat) (tag : String) (r : TypedRow) : TypedRow :=
  { r with created_datetime := some now, stamps := r.stamps ++ [tag] }

/-- Embedding of `combine_datasets` (minus the external CSV read): adds the
`created_datetime` column to every ingested row. -/
def combine_datasets (now : Nat) (df : List RawRow) : List RawRow :=
  df.map (fun r => { r with created_datetime := some now,
                            stamps := r.stamps ++ ["combine_datasets"] })

/-- The cast step of `filter_null_values`: the four non-strict casts. -/
def castRow (r : RawRow) : CastRow :=
  { month := parseYearMonth r.month
    town := r.town
    flat_type := r.flat_type
    block := r.block
    street_name := r.street_name
    storey_range := r.storey_range
    floor_area_sqm := strToInteger r.floor_area_sqm
    flat_model := r.flat_model
    lease_commence_date := parseYear r.lease_commence_date
    remaining_lease := r.remaining_lease
    resale_price := strToInteger r.resale_price
    created_datetime := r.created_datetime
    stamps := r.stamps }

/-- The null test of `filter_null_values`: any of the four cast columns null. -/
def hasNullCast (c : CastRow) : Bool :=
  c.resale_price.isNone || c.month.isNone ||
    c.lease_commence_date.isNone || c.floor_area_sqm.isNone

/-- Unwrap a cast row all of whose cast columns are non-null. -/
def toTyped (c : CastRow) : Option TypedRow :=
  match c.month, c.floor_area_sqm, c.lease_commence_date, c.resale_price with
  | some m, some fa, some lc, some rp =>
    some { month := m, town := c.town, flat_type := c.flat_type, block := c.block
           street_name := c.street_name, storey_range := c.storey_range
           floor_area_sqm := fa, flat_model := c.flat_model
           lease_commence_date := lc, remaining_lease := c.remaining_lease
           resale_price := rp, created_datetime := c.created_datetime
           stamps := c.stamps }
  | _, _, _, _ => none

/-- Re-wrap a typed row in the cast schema (used where the source
concatenates typed failure frames with the cast-typed null-failure frame). -/
def toCast (t : TypedRow) : CastRow :=
  { month := some t.month, town := t.town, flat_type := t.flat_type
    block := t.block, street_name := t.street_name
    storey_range := t.storey_range, floor_area_sqm := some t.floor_area_sqm
    flat_model := t.flat_model, lease_commence_date := some t.lease_commence_date
    remaining_lease := t.remaining_lease, resale_price := some t.resale_price
    created_datetime := t.created_datetime, stamps := t.stamps }

/-- Embedding of `filter_null_values`: cast the four columns non-strictly,
route rows with any null among them to the failed side tagged
"filter_null_values", keep the rest; both sides get `created_datetime`. -/
def filter_null_values (now : Nat) (df : List RawRow) :
    List (CastRow × String) × List TypedRow :=
  let cast := df.map castRow
  let non_numeric := (cast.filter (fun c => hasNullCast c)).map
    (fun c => (stampC now "filter_null_values" c, "filter_null_values"))
  let qualified :=
    ((cast.filter (fun c => hasNullCast c = false)).filterMap toTyped).map
      (stampT now "filter_null_values")
  (non_numeric, qualified)

/-- Embedding of `filter_month_range`: keep only rows whose `month` lies in
the inclusive configured range; the complement is returned nowhere. -/
def filter_month_range (minMonth maxMonth : HDate) (df : List TypedRow) :
    List TypedRow :=
  df.filter (fun r => HDate.leB minMonth r.month && HDate.leB r.month maxMonth)

/-- The ordered categorical rule set (`data_quality_rules.json`,
`categorical_columns`): column name paired with its `expected_values`,
in Python dict insertion order. -/
abbrev CatRules := List (String × List String)

/-- Read a string column of the frame by name (the categorical machinery
only ever touches Utf8 columns; a non-string or unknown name yields none). -/
def getStrCol (r : TypedRow) (c : String) : Option String :=
  if c = "town" then some r.town
  else if c = "flat_type" then some r.flat_type
  else if c = "block" then some r.block
  else if c = "street_name" then some r.street_name
  else if c = "storey_range" then some r.storey_range
  else if c = "flat_model" then some r.flat_model
  else if c = "remaining_lease" then some r.remaining_lease
  else none

/-- Replace a string column of the frame by name. -/
def setStrCol (r : TypedRow) (c v : String) : TypedRow :=
  if c = "town" then { r with town := v }
  else if c = "flat_type" then { r with flat_type := v }
  else if c = "block" then { r with block := v }
  else if c = "street_name" then { r with street_name := v }
  else if c = "storey_range" then { r with storey_range := v }
  else if c = "flat_model" then { r with flat_model := v }
  else if c = "remaining_lease" then { r with remaining_lease := v }
  else r

instance : Inhabited TypedRow :=
  ⟨{ month := ⟨0, 1⟩, town := "", flat_type := "", block := "", street_name := ""
     storey_range := "", floor_area_sqm := 0, flat_model := ""
     lease_commence_date := ⟨0, 1⟩, remaining_lease := "", resale_price := 0
     created_datetime := none, stamps := [] }⟩

/-- The guard `column in qualified_df.columns` of the categorical filter,
restricted to the string columns the stage can act on. -/
def isStrColumn (c : String) : Bool := (getStrCol default c).isSome

/-- The membership test `pl.col(column).is_in(expected)` on one row. -/
def colValIn (r : TypedRow) (c : String) (expected : List String) : Bool :=
  match getStrCol r c with
  | some v => expected.contains v
  | none => false

/-- Character-wise uppercase, the embedding of `str.to_uppercase()` (the
data is ASCII). -/
def strToUpper (s : String) : String :=
  String.mk (s.toList.map Char.toUpper)

/-- Embedding of the uppercase step of `data_validation`:
`pl.col(list(categorical_rules.keys())).str.to_uppercase()`. -/
def upperCatCols (rules : CatRules) (df : List TypedRow) : List TypedRow :=
  df.map (fun r =>
    rules.foldl (fun acc p =>
      match getStrCol acc p.1 with
      | some v => setStrCol acc p.1 (strToUpper v)
      | none => acc) r)

/-- Embedding of `filter_categorical_expected_values`: fold over the rules
in order; at each rule whose column exists and whose expected list is
nonempty, narrow the qualified frame by membership, and recompute the
missing frame from the ORIGINAL input frame for that single column
(faithful to the source, which overwrites `missing_from_expected_cat_df`
on every iteration). Both outputs are then stamped and the missing side
tagged "filter_categorical_expected_values". -/
def filter_categorical_expected_values (rules : CatRules) (now : Nat)
    (df : List TypedRow) : List TypedRow × List (TypedRow × String) :=
  let st := rules.foldl
    (fun (st : List TypedRow × List TypedRow) p =>
      if isStrColumn p.1 && !p.2.isEmpty then
        (st.1.filter (fun r => colValIn r p.1 p.2),
         df.filter (fun r => !colValIn r p.1 p.2))
      else st)
    (df, ([] : List TypedRow))
  (st.1.map (stampT now "filter_categorical_expected_values"),
   st.2.map (fun r =>
     (stampT now "filter_categorical_expected_values" r,
      "filter_categorical_expected_values")))

/-- Embedding of `get_remaining_lease`: derive the remaining-lease text from
the configured lease bound, overwrite `remaining_lease`, and stamp
`created_datetime`. -/
def get_remaining_lease (bound : Int) (now : Nat) (df : List TypedRow) :
    List TypedRow :=
  df.map (fun r =>
    { r with
      remaining_lease :=
        toString (bound - (r.month.year - r.lease_commence_date.year - 1)) ++
          " years " ++ toString ((12 : Int) - (r.month.month : Int)) ++ " months"
      created_datetime := some now
      stamps := r.stamps ++ ["get_remaining_lease"] })

/-- Zero-pad a month number to two digits (ISO rendering of a Date column
inside `concat_str`). -/
def pad2 (n : Nat) : String :=
  if n < 10 then "0" ++ toString n else toString n

/-- String rendering of a date column inside `concat_str`. -/
def dateStr (d : HDate) : String :=
  toString d.year ++ "-" ++ pad2 d.month ++ "-01"

/-- String rendering of the `created_datetime` column inside `concat_str`
(always populated when the composite key is built). -/
def createdStr : Option Nat → String
  | some n => toString n
  | none => ""

/-- The composite key of `filter_duplicate_rows`:
`pl.concat_str` over every column except `resale_price`, in column order
(the `created_datetime` column added at ingestion sits after
`resale_price`, so it is part of the key). -/
def compositeKey (r : TypedRow) : String :=
  dateStr r.month ++ r.town ++ r.flat_type ++ r.block ++ r.street_name ++
    r.storey_range ++ toString r.floor_area_sqm ++ r.flat_model ++
    dateStr r.lease_commence_date ++ r.remaining_lease ++
    createdStr r.created_datetime

/-- One insertion step of the stable descending sort
(`sort("resale_price", descending=True, maintain_order=True)`): the new
element is placed before the first element whose price is not strictly
greater, so equal-price elements keep their original relative order. -/
def insertDescBy {α : Type} (p : α → Int) (a : α) : List α → List α
  | [] => [a]
  | b :: t => if p a < p b then b :: insertDescBy p a t else a :: b :: t

/-- Stable sort by `p` descending. -/
def sortDescBy {α : Type} (p : α → Int) : List α → List α
  | [] => []
  | a :: t => insertDescBy p a (sortDescBy p t)

/-- Embedding of `unique(subset=[key], keep="first")`: keep each row whose
key has not been seen earlier in the frame. -/
def uniqueFirstByGo {α κ : Type} [DecidableEq κ] (key : α → κ) :
    List κ → List α → List α
  | _, [] => []
  | seen, a :: t =>
    if key a ∈ seen then uniqueFirstByGo key seen t
    else a :: uniqueFirstByGo key (key a :: seen) t

/-- A qualified row of the deduplicator: the source materializes the
`composite_key` column before sorting and never drops it from the
qualified side. -/
structure KeyedRow where
  row : TypedRow
  composite_key : String
  deriving DecidableEq, Repr

/-- Embedding of `filter_duplicate_rows`: materialize the composite key,
stable-sort by `resale_price` descending, keep the first row per key as
the survivor, and collect every row whose key `is_duplicated` (appears
more than once, the survivor INCLUDED) into the duplicates subset tagged
"filter_duplicate_rows"; both sides are stamped. -/
def filter_duplicate_rows (now : Nat) (df : List TypedRow) :
    List KeyedRow × List (TypedRow × String) :=
  let keyed := df.map (fun r => KeyedRow.mk r (compositeKey r))
  let sorted := sortDescBy (fun x => x.row.resale_price) keyed
  let uniq := uniqueFirstByGo (fun x => x.composite_key) [] sorted
  let dups := sorted.filter
    (fun x => 2 ≤ (sorted.filter
      (fun y => y.composite_key = x.composite_key)).length)
  (uniq.map (fun x =>
     KeyedRow.mk (stampT now "filter_duplicate_rows" x.row) x.composite_key),
   dups.map (fun x =>
     (stampT now "filter_duplicate_rows" x.row, "filter_duplicate_rows")))

/-- The loaded rule object (`data_quality_rules.json`): categorical
allow-lists, the month range, and the lease bound. -/
structure RuleSet where
  categorical : CatRules
  minMonth : HDate
  maxMonth : HDate
  leaseMax : Int
  deriving Repr

/-- Embedding of `data_validation` (minus the CSV writes): the staged
pipeline null-cast → month range → uppercase → categorical → remaining
lease → deduplicate, with the failed side the concatenation of the
null-cast failures, the categorical failures, and the duplicate subset. -/
def data_validation (rules : RuleSet) (now : Nat) (df : List RawRow) :
    List KeyedRow × List (CastRow × String) :=
  let s1 := filter_null_values now df
  let q2 := filter_month_range rules.minMonth rules.maxMonth s1.2
  let q3 := upperCatCols rules.categorical q2
  let s4 := filter_categorical_expected_values rules.categorical now q3
  let q5 := get_remaining_lease rules.leaseMax now s4.1
  let s6 := filter_duplicate_rows now q5
  (s6.1,
   s1.1 ++ s4.2.map (fun p => (toCast p.1, p.2)) ++
     s6.2.map (fun p => (toCast p.1, p.2)))

/-- Embedding of `str.replace_all(r"[^0-9]", "")`: keep only digits. -/
def stripNonDigits (s : String) : String :=
  String.mk (s.toList.filter Char.isDigit)

/-- Embedding of `str.zfill(3)`: left-pad with zeros up to length 3. -/
def zfill3 (s : String) : String :=
  if 3 ≤ s.length then s
  else String.mk (List.replicate (3 - s.length) '0') ++ s

/-- Embedding of `str.slice(0, 1)`: the first character (or empty). -/
def strSlice1 (s : String) : String :=
  String.mk (s.toList.take 1)

/-- The mean of `pl.col("resale_price").mean()` over a group, kept as the
exact unreduced fraction (price sum, group size): downstream only ever
consumes its truncation to Int64, which is invariant under reduction. -/
def groupMean (l : List Int) : Int × Nat :=
  (l.foldl (fun a b => a + b) 0, l.length)

/-- Embedding of `.cast(pl.Int64)` on the float mean: truncation toward
zero of the exact fraction. -/
def castInt64 (q : Int × Nat) : Int := q.1.tdiv (q.2 : Int)

/-- The distinct `(month, flat_type)` keys of `group_by`. -/
def group_keys (df : List TypedRow) : List (HDate × String) :=
  (df.map (fun r => (r.month, r.flat_type))).dedup

/-- The resale prices of one `(month, flat_type)` group. -/
def group_prices (df : List TypedRow) (k : HDate × String) : List Int :=
  (df.filter (fun r => (r.month, r.flat_type) = k)).map
    (fun r => r.resale_price)

/-- Embedding of the `group_by(["month", "flat_type"]).agg(mean)` frame:
one key paired with its group mean resale price. -/
def grouped (df : List TypedRow) : List ((HDate × String) × (Int × Nat)) :=
  (group_keys df).map (fun k => (k, groupMean (group_prices df k)))

/-- A row of `get_resale_identifier`'s output frame: the input row plus the
intermediate `block_num` and `avg_resale_price` columns and the derived
`resale_identifier` (null when the left join found no group, in which case
`pl.format` also yields null). -/
structure IdRow where
  row : TypedRow
  block_num : String
  avg_resale_price : Option (Int × Nat)
  resale_identifier : Option String
  deriving DecidableEq, Repr

/-- Embedding of `get_resale_identifier`: add `block_num` (digits of
`block`, zero-padded to 3), left-join the per-`(month, flat_type)` mean
resale price back on, and format
`"S{block_num}{avg % 100}{month number}{first char of town}"`. -/
def get_resale_identifier (df : List TypedRow) : List IdRow :=
  let g := grouped df
  df.flatMap (fun r =>
    let bn := zfill3 (stripNonDigits r.block)
    let ms := g.filter (fun p => p.1 = (r.month, r.flat_type))
    if ms.isEmpty then [IdRow.mk r bn none none]
    else ms.map (fun p =>
      IdRow.mk r bn (some p.2)
        (some ("S" ++ bn ++ toString (Int.tmod (castInt64 p.2) 100) ++
          toString r.month.month ++ strSlice1 r.town))))

/-- A survivor row of `filter_resale_identifier`: the intermediate
`block_num` and `avg_resale_price` columns are dropped,
`resale_identifier` is kept. -/
structure UniqIdRow where
  row : TypedRow
  resale_identifier : Option String
  deriving DecidableEq, Repr

/-- A rejected row of `filter_resale_identifier`: `resale_identifier` is
dropped, the intermediate columns remain, `reason_for_fail` is added. -/
structure DupIdRow where
  row : TypedRow
  block_num : String
  avg_resale_price : Option (Int × Nat)
  reason_for_fail : String
  deriving DecidableEq, Repr

/-- Embedding of `filter_resale_identifier`: derive identifiers,
stable-sort by `resale_price` descending, keep the first row per
`resale_identifier`, and collect every row whose identifier
`is_duplicated` into the rejected subset tagged
"filter_resale_identifier". -/
def filter_resale_identifier (df : List TypedRow) :
    List UniqIdRow × List DupIdRow :=
  let sorted := sortDescBy (fun x => x.row.resale_price)
    (get_resale_identifier df)
  let uniq := uniqueFirstByGo (fun x => x.resale_identifier) [] sorted
  let dups := sorted.filter (fun x =>
    2 ≤ (sorted.filter
      (fun y => y.resale_identifier = x.resale_identifier)).length)
  (uniq.map (fun x => UniqIdRow.mk x.row x.resale_identifier),
   dups.map (fun x =>
     DupIdRow.mk x.row x.block_num x.avg_resale_price
       "filter_resale_identifier"))

/-- The string Python's `str` produces on the one-field struct
`{'resale_identifier': v}` handed to `hash_row` by `map_elements`. -/
def structReprId : Option String → String
  | some v => "\x7b'resale_identifier': '" ++ v ++ "'\x7d"
  | none => "\x7b'resale_identifier': None\x7d"

/-- A hashed output row of `get_hashed_dataset`. -/
structure HashedRow where
  row : TypedRow
  resale_identifier : Option String
  hashed_resale_identifier : String
  deriving DecidableEq, Repr

/-- Embedding of `get_hashed_dataset`, parameterized by the SHA-256 hex
digest function `sha256hex` (the external `hashlib` collaborator): the
attached digest is computed over `str(row)` of the ONE-FIELD STRUCT
holding `resale_identifier`, not over the bare field value. -/
def get_hashed_dataset (sha256hex : String → String) (df : List UniqIdRow) :
    List HashedRow :=
  df.map (fun r =>
    HashedRow.mk r.row r.resale_identifier
      (sha256hex (structReprId r.resale_identifier)))

/-- Modelled from the spec: the §3 description of **ResaleIdentifier** —
"derived text formed from: zero-padded block number (3 digits), last two
digits of the group average resale price for that (month, flat_type)
group, the numeric month, and the first character of the town name" —
with no other constituent. Used only to compare the claim's wording with
`get_resale_identifier`. -/
def claimResaleIdentifier (df : List TypedRow) (r : TypedRow) : String :=
  zfill3 (stripNonDigits r.block) ++
    toString (Int.tmod
      (castInt64 (groupMean (group_prices df (r.month, r.flat_type)))) 100) ++
    toString r.month.month ++ strSlice1 r.town

/-- The `reason_for_fail` values written to the failed output over a full
run: `data_validation` overwrites the failed CSV with its unqualified
frame, then `transform_cleaned_data` appends the identifier-dedup rejects
via `update_csv` on the same path. -/
def full_run_failed_reasons (rules : RuleSet) (now : Nat)
    (df : List RawRow) : List String :=
  let v := data_validation rules now df
  v.2.map (fun p => p.2) ++
    (filter_resale_identifier (v.1.map (fun x => x.row))).2.map
      (fun d => d.reason_for_fail)

/-- The qualified typed row the full run produces from `exRawGood`
(used to exhibit a concrete element of the qualified output). -/
def exQRowT : TypedRow :=
  { month := ⟨2024, 3⟩, town := "A TOWN", flat_type := "4 ROOM", block := "12A"
    street_name := "MAIN ST", storey_range := "01 TO 03", floor_area_sqm := 85
    flat_model := "Model A", lease_commence_date := ⟨1990, 1⟩
    remaining_lease := "66 years 9 months", resale_price := 350000
    created_datetime := some 1
    stamps := ["combine_datasets", "filter_null_values",
               "filter_categorical_expected_values", "get_remaining_lease",
               "filter_duplicate_rows"] }

/-- Concrete raw row used to evaluate the pipeline: the §8 scenario row
(`block="12A"`, `month="2024-03"`, `lease_commence_date="1990"`,
`floor_area_sqm="85"`, `resale_price="350000"`, categorical fields valid). -/
def exRawGood : RawRow :=
  { month := "2024-03", town := "a town", flat_type := "4 ROOM", block := "12A"
    street_name := "MAIN ST", storey_range := "01 TO 03"
    floor_area_sqm := "85", flat_model := "Model A"
    lease_commence_date := "1990", remaining_lease := "61 years 3 months"
    resale_price := "350000", created_datetime := none, stamps := [] }

/-- Concrete rule set: one categorical column, month range 2020-01..2024-12
inclusive, lease bound 99. -/
def exRules : RuleSet :=
  { categorical := [("town", ["A TOWN"])]
    minMonth := ⟨2020, 1⟩, maxMonth := ⟨2024, 12⟩, leaseMax := 99 }

/-- The scenario row with its month moved outside the configured range. -/
def exRawOut : RawRow := { exRawGood with month := "2019-05" }

/-- The scenario row with an unparseable `resale_price`. -/
def exRawBad : RawRow := { exRawGood with resale_price := "abc" }

/-- The scenario row with a different street name and price (same
resale-identifier constituents, different composite key). -/
def exRawB : RawRow :=
  { exRawGood with street_name := "OTHER ST", resale_price := "300000" }

/-- Concrete typed row (lower-priced duplicate). -/
def exT1 : TypedRow :=
  { month := ⟨2024, 3⟩, town := "X", flat_type := "F", block := "1"
    street_name := "S", storey_range := "01 TO 03", floor_area_sqm := 85
    flat_model := "M", lease_commence_date := ⟨1990, 1⟩
    remaining_lease := "L", resale_price := 300000
    created_datetime := some 0, stamps := [] }

/-- The same row with the higher price (identical composite key). -/
def exT2 : TypedRow := { exT1 with resale_price := 350000 }

/-- Typed row that fails the first of two categorical rules and passes the
last. -/
def exTC : TypedRow := { exT1 with town := "Z", flat_type := "B" }

/-- The typed §8 scenario row as it reaches `get_remaining_lease`. -/
def exTScenario : TypedRow :=
  { month := ⟨2024, 3⟩, town := "A TOWN", flat_type := "4 ROOM", block := "12A"
    street_name := "MAIN ST", storey_range := "01 TO 03", floor_area_sqm := 85
    flat_model := "Model A", lease_commence_date := ⟨1990, 1⟩
    remaining_lease := "61 years 3 months", resale_price := 350000
    created_datetime := some 0, stamps := [] }

/-- The identifier-frame row `get_resale_identifier` produces for
`[exT2]`. -/
def exIdRow : IdRow := ⟨exT2, "001", some (350000, 1), some "S00103X"⟩

section SortLemmas

variable {α : Type} {κ : Type}

theorem mem_insertDescBy (p : α → Int) (a x : α) (l : List α) :
    x ∈ insertDescBy p a l ↔ x = a ∨ x ∈ l := by
  induction l with
  | nil => simp [insertDescBy]
  | cons b t ih =>
    simp only [insertDescBy]
    by_cases h : p a < p b
    · rw [if_pos h]
      simp only [List.mem_cons, ih]
      tauto
    · rw [if_neg h]
      simp only [List.mem_cons]

theorem insertDescBy_perm (p : α → Int) (a : α) (l : List α) :
    List.Perm (insertDescBy p a l) (a :: l) := by
  induction l with
  | nil => exact List.Perm.refl _
  | cons b t ih =>
    simp only [insertDescBy]
    by_cases h : p a < p b
    · rw [if_pos h]
      exact (ih.cons b).trans (List.Perm.swap a b t)
    · rw [if_neg h]

theorem sortDescBy_perm (p : α → Int) (l : List α) :
    List.Perm (sortDescBy p l) l := by
  induction l with
  | nil => exact List.Perm.refl _
  | cons a t ih =>
    simp only [sortDescBy]
    exact (insertDescBy_perm p a (sortDescBy p t)).trans (ih.cons a)

theorem insertDescBy_sorted (p : α → Int) (a : α) (l : List α)
    (h : l.Pairwise (fun x y => p y ≤ p x)) :
    (insertDescBy p a l).Pairwise (fun x y => p y ≤ p x) := by
  induction l with
  | nil => simp [insertDescBy]
  | cons b t ih =>
    rcases List.pairwise_cons.mp h with ⟨hb, ht⟩
    simp only [insertDescBy]
    by_cases hc : p a < p b
    · rw [if_pos hc]
      refine List.pairwise_cons.mpr ⟨?_, ih ht⟩
      intro x hx
      rcases (mem_insertDescBy p a x t).mp hx with rfl | hxt
      · exact le_of_lt hc
      · exact hb x hxt
    · rw [if_neg hc]
      refine List.pairwise_cons.mpr ⟨?_, h⟩
      intro x hx
      rcases List.mem_cons.mp hx with rfl | hxt
      · exact le_of_not_lt hc
      · exact le_trans (hb x hxt) (le_of_not_lt hc)

theorem sortDescBy_sorted (p : α → Int) (l : List α) :
    (sortDescBy p l).Pairwise (fun x y => p y ≤ p x) := by
  induction l with
  | nil => simp [sortDescBy]
  | cons a t ih => exact insertDescBy_sorted p a (sortDescBy p t) ih

theorem insertDescBy_front (p : α → Int) (a : α) (l : List α)
    (h : ∀ x ∈ l, ¬ p a < p x) : insertDescBy p a l = a :: l := by
  cases l with
  | nil => rfl
  | cons b t =>
    simp only [insertDescBy]
    rw [if_neg (h b (List.mem_cons_self b t))]

theorem sortDescBy_const (p : α → Int) (l : List α) (c : Int)
    (h : ∀ x ∈ l, p x = c) : sortDescBy p l = l := by
  induction l with
  | nil => rfl
  | cons a t ih =>
    simp only [sortDescBy]
    rw [ih (fun x hx => h x (List.mem_cons_of_mem a hx))]
    apply insertDescBy_front
    intro x hx
    rw [h x (List.mem_cons_of_mem a hx), h a (List.mem_cons_self a t)]
    exact lt_irrefl c

theorem filter_insertDescBy (p : α → Int) (q : α → Bool) (a : α) (l : List α)
    (h : l.Pairwise (fun x y => p y ≤ p x)) :
    (insertDescBy p a l).filter q =
      if q a then insertDescBy p a (l.filter q) else l.filter q := by
  induction l with
  | nil =>
    cases hqa : q a with
    | true => simp [insertDescBy, hqa]
    | false => simp [insertDescBy, hqa]
  | cons b t ih =>
    rcases List.pairwise_cons.mp h with ⟨hb, ht⟩
    simp only [insertDescBy]
    by_cases hc : p a < p b
    · rw [if_pos hc]
      cases hqb : q b with
      | true =>
        rw [List.filter_cons_of_pos hqb, ih ht,
            List.filter_cons_of_pos hqb]
        cases hqa : q a with
        | true =>
          rw [if_pos rfl, if_pos rfl]
          simp only [insertDescBy]
          rw [if_pos hc]
        | false => rw [if_neg (by simp), if_neg (by simp)]
      | false =>
        rw [List.filter_cons_of_neg (by simp [hqb]), ih ht,
            List.filter_cons_of_neg (by simp [hqb])]
    · rw [if_neg hc]
      cases hqa : q a with
      | true =>
        rw [List.filter_cons_of_pos hqa, if_pos rfl]
        apply Eq.symm
        apply insertDescBy_front
        intro x hx
        rcases List.mem_cons.mp (List.mem_of_mem_filter hx) with rfl | hxt
        · exact hc
        · intro hlt
          exact hc (lt_of_lt_of_le hlt (hb x hxt))
      | false =>
        rw [List.filter_cons_of_neg (by simp [hqa]), if_neg (by simp)]

theorem filter_sortDescBy (p : α → Int) (q : α → Bool) (l : List α) :
    (sortDescBy p l).filter q = sortDescBy p (l.filter q) := by
  induction l with
  | nil => rfl
  | cons a t ih =>
    simp only [sortDescBy]
    rw [filter_insertDescBy p q a (sortDescBy p t) (sortDescBy_sorted p t)]
    cases hqa : q a with
    | true =>
      rw [if_pos rfl, ih, List.filter_cons_of_pos hqa]
      rfl
    | false =>
      rw [if_neg (by simp), ih, List.filter_cons_of_neg (by simp [hqa])]

theorem mem_of_mem_uniqueFirstByGo [DecidableEq κ] (key : α → κ) :
    ∀ (seen : List κ) (l : List α) (x : α),
      x ∈ uniqueFirstByGo key seen l → x ∈ l := by
  intro seen l
  induction l generalizing seen with
  | nil => intro x hx; exact absurd hx (List.not_mem_nil x)
  | cons a t ih =>
    intro x hx
    simp only [uniqueFirstByGo] at hx
    by_cases ha : key a ∈ seen
    · rw [if_pos ha] at hx
      exact List.mem_cons_of_mem a (ih seen x hx)
    · rw [if_neg ha] at hx
      rcases List.mem_cons.mp hx with rfl | hx'
      · exact List.mem_cons_self x t
      · exact List.mem_cons_of_mem a (ih (key a :: seen) x hx')

theorem uniqueFirstByGo_filter_of_mem [DecidableEq κ] (key : α → κ) (k : κ) :
    ∀ (seen : List κ) (l : List α), k ∈ seen →
      (uniqueFirstByGo key seen l).filter (fun x => key x = k) = [] := by
  intro seen l
  induction l generalizing seen with
  | nil => intro _; rfl
  | cons a t ih =>
    intro hk
    simp only [uniqueFirstByGo]
    by_cases ha : key a ∈ seen
    · rw [if_pos ha]
      exact ih seen hk
    · rw [if_neg ha]
      have hne : ¬ (key a = k) := fun he => ha (he ▸ hk)
      rw [List.filter_cons_of_neg (by simp [hne])]
      exact ih (key a :: seen) (List.mem_cons_of_mem _ hk)

theorem uniqueFirstByGo_filter_of_not_mem [DecidableEq κ] (key : α → κ)
    (k : κ) :
    ∀ (seen : List κ) (l : List α), k ∉ seen →
      (uniqueFirstByGo key seen l).filter (fun x => key x = k) =
        (l.filter (fun x => key x = k)).take 1 := by
  intro seen l
  induction l generalizing seen with
  | nil => intro _; rfl
  | cons a t ih =>
    intro hk
    simp only [uniqueFirstByGo]
    by_cases ha : key a ∈ seen
    · rw [if_pos ha]
      have hne : ¬ (key a = k) := fun he => hk (he ▸ ha)
      rw [ih seen hk, List.filter_cons_of_neg (by simp [hne])]
    · rw [if_neg ha]
      by_cases hak : key a = k
      · rw [List.filter_cons_of_pos (by simp [hak]),
            List.filter_cons_of_pos (by simp [hak])]
        rw [uniqueFirstByGo_filter_of_mem key k (key a :: seen) t
          (by rw [hak]; exact List.mem_cons_self k seen)]
        rfl
      · rw [List.filter_cons_of_neg (by simp [hak]),
            List.filter_cons_of_neg (by simp [hak])]
        apply ih
        intro hmem
        rcases List.mem_cons.mp hmem with h1 | h2
        · exact hak h1.symm
        · exact hk h2

theorem uniqueFirstByGo_of_nodup [DecidableEq κ] (key : α → κ) :
    ∀ (seen : List κ) (l : List α), (l.map key).Nodup →
      (∀ x ∈ l, key x ∉ seen) → uniqueFirstByGo key seen l = l := by
  intro seen l
  induction l generalizing seen with
  | nil => intro _ _; rfl
  | cons a t ih =>
    intro hnd hseen
    rcases (by simpa using hnd :
        (∀ x ∈ t, ¬ key x = key a) ∧ (t.map key).Nodup) with ⟨hka, hndt⟩
    simp only [uniqueFirstByGo]
    rw [if_neg (hseen a (List.mem_cons_self a t))]
    congr 1
    apply ih _ hndt
    intro x hx hmem
    rcases List.mem_cons.mp hmem with h1 | h2
    · exact hka x hx h1
    · exact hseen x (List.mem_cons_of_mem a hx) h2

theorem filter_key_length_le_one [DecidableEq κ] (key : α → κ) (l : List α)
    (h : (l.map key).Nodup) (k : κ) :
    (l.filter (fun x => key x = k)).length ≤ 1 := by
  induction l with
  | nil => simp
  | cons a t ih =>
    rcases (by simpa using h :
        (∀ x ∈ t, ¬ key x = key a) ∧ (t.map key).Nodup) with ⟨hka, hndt⟩
    by_cases hak : key a = k
    · rw [List.filter_cons_of_pos (by simp [hak])]
      have ht : t.filter (fun x => key x = k) = [] := by
        rw [List.filter_eq_nil_iff]
        intro x hx hkx
        apply hka x hx
        rw [hak]
        simpa using hkx
      rw [ht]
      exact le_refl 1
    · rw [List.filter_cons_of_neg (by simp [hak])]
      exact ih hndt

end SortLemmas

section ListHelpers

variable {α β : Type}

theorem length_filter_split (p : α → Bool) (l : List α) :
    (l.filter p).length + (l.filter (fun a => p a = false)).length =
      l.length := by
  induction l with
  | nil => rfl
  | cons a t ih =>
    cases ha : p a
    · rw [List.filter_cons_of_neg (by simp [ha]),
          List.filter_cons_of_pos (by simp [ha])]
      simp only [List.length_cons]
      omega
    · rw [List.filter_cons_of_pos (by simp [ha]),
          List.filter_cons_of_neg (by simp [ha])]
      simp only [List.length_cons]
      omega

theorem length_filter_split_not (p : α → Bool) (l : List α) :
    (l.filter p).length + (l.filter (fun a => !(p a))).length = l.length := by
  induction l with
  | nil => rfl
  | cons a t ih =>
    cases ha : p a
    · rw [List.filter_cons_of_neg (by simp [ha]),
          List.filter_cons_of_pos (by simp [ha])]
      simp only [List.length_cons]
      omega
    · rw [List.filter_cons_of_pos (by simp [ha]),
          List.filter_cons_of_neg (by simp [ha])]
      simp only [List.length_cons]
      omega

theorem length_filterMap_all (f : α → Option β) (l : List α)
    (h : ∀ a ∈ l, (f a).isSome) : (l.filterMap f).length = l.length := by
  induction l with
  | nil => rfl
  | cons a t ih =>
    rcases Option.isSome_iff_exists.mp (h a (List.mem_cons_self a t)) with
      ⟨b, hb⟩
    rw [List.filterMap_cons_some hb]
    simp only [List.length_cons]
    rw [ih (fun x hx => h x (List.mem_cons_of_mem a hx))]

theorem foldl_preserve {σ : Type} (f : σ → β → σ) (P : σ → Prop)
    (hstep : ∀ s b, P s → P (f s b)) :
    ∀ (l : List β) (s0 : σ), P s0 → P (l.foldl f s0) := by
  intro l
  induction l with
  | nil => intro s0 h0; exact h0
  | cons b t ih => intro s0 h0; exact ih (f s0 b) (hstep s0 b h0)

theorem length_flatMap_singleton (piece : α → List β) (l : List α)
    (h : ∀ r ∈ l, (piece r).length = 1) :
    (l.flatMap piece).length = l.length := by
  induction l with
  | nil => rfl
  | cons a t ih =>
    rw [List.flatMap_cons, List.length_append,
        h a (List.mem_cons_self a t),
        ih (fun r hr => h r (List.mem_cons_of_mem a hr))]
    simp only [List.length_cons]
    omega

theorem map_pair_filter_eq {κ : Type} [DecidableEq κ] (f : κ → β)
    (ks : List κ) (h : ks.Nodup) (k : κ) (hk : k ∈ ks) :
    (ks.map (fun x => (x, f x))).filter (fun p => p.1 = k) = [(k, f k)] := by
  induction ks with
  | nil => cases hk
  | cons a t ih =>
    rcases List.nodup_cons.mp h with ⟨ha, hndt⟩
    rcases List.mem_cons.mp hk with rfl | hkt
    · rw [List.map_cons, List.filter_cons_of_pos (by simp)]
      have ht : (t.map (fun x => (x, f x))).filter (fun p => p.1 = k) = [] := by
        rw [List.filter_eq_nil_iff]
        intro p hp hpk
        rcases List.mem_map.mp hp with ⟨x, hx, rfl⟩
        have : x = k := by simpa using hpk
        exact ha (this ▸ hx)
      rw [ht]
    · rw [List.map_cons,
          List.filter_cons_of_neg (by
            simp only [decide_eq_true_eq]
            exact fun he => ha (he.symm ▸ hkt))]
      exact ih hndt hkt

theorem toTyped_isSome_of_not_null (c : CastRow)
    (h : hasNullCast c = false) : (toTyped c).isSome := by
  cases hm : c.month with
  | none => simp [hasNullCast, hm] at h
  | some m =>
    cases hfa : c.floor_area_sqm with
    | none => simp [hasNullCast, hfa] at h
    | some fa =>
      cases hlc : c.lease_commence_date with
      | none => simp [hasNullCast, hlc] at h
      | some lc =>
        cases hrp : c.resale_price with
        | none => simp [hasNullCast, hrp] at h
        | some rp => simp [toTyped, hm, hfa, hlc, hrp]

theorem filter_map_mk (p : KeyedRow → Bool) (q : TypedRow → Bool)
    (hpq : ∀ r, p (KeyedRow.mk r (compositeKey r)) = q r)
    (df : List TypedRow) :
    (df.map (fun r => KeyedRow.mk r (compositeKey r))).filter p =
      (df.filter q).map (fun r => KeyedRow.mk r (compositeKey r)) := by
  rw [List.filter_map]
  exact congrArg _ (List.filter_congr (fun a _ => hpq a))

theorem toTyped_stamps (c : CastRow) (t : TypedRow)
    (h : toTyped c = some t) : t.stamps = c.stamps := by
  simp only [toTyped] at h
  split at h
  · cases h
    rfl
  · cases h

end ListHelpers

/-- C7: for every typed, filtered row, `get_remaining_lease` emits a row
with `remaining_lease = "{bound - (month.year - lease.year - 1)} years
{12 - month.month} months"`, leaving the date and price fields unchanged. -/
theorem claim7_remaining_lease (bound : Int) (now : Nat)
    (df : List TypedRow) (s : TypedRow) (hs : s ∈ df) :
    ∃ t ∈ get_remaining_lease bound now df,
      t.remaining_lease =
        toString (bound - (s.month.year - s.lease_commence_date.year - 1)) ++
          " years " ++ toString ((12 : Int) - (s.month.month : Int)) ++
          " months" ∧
      t.month = s.month ∧ t.lease_commence_date = s.lease_commence_date ∧
      t.resale_price = s.resale_price := by
  unfold get_remaining_lease
  exact ⟨_, List.mem_map_of_mem _ hs, rfl, rfl, rfl, rfl⟩

/-- C7 witness: the §8 scenario row (month 2024-03, lease commencing 1990,
bound 99) yields `remaining_lease = "66 years 9 months"`. -/
theorem claim7_witness :
    ∃ t ∈ get_remaining_lease 99 1 [exTScenario],
      t.remaining_lease = "66 years 9 months" := by
  obtain ⟨t, ht, heq, -, -, -⟩ :=
    claim7_remaining_lease 99 1 [exTScenario] exTScenario (by decide)
  refine ⟨t, ht, ?_⟩
  rw [heq]
  decide

/-- C2 (code bug evaluated): on two rows that agree on every non-price
column (prices 300000 and 350000), `filter_duplicate_rows` returns one
survivor but a duplicates subset of TWO rows — `is_duplicated` marks the
surviving highest-priced row as well — so the survivor appears in both
outputs and the two outputs total 3 rows from 2 inputs. -/
theorem claim2_failing_eval :
    (filter_duplicate_rows 1 [exT1, exT2]).1.length +
      (filter_duplicate_rows 1 [exT1, exT2]).2.length = 3 ∧
    ([exT1, exT2] : List TypedRow).length = 2 ∧
    (∃ x ∈ (filter_duplicate_rows 1 [exT1, exT2]).1,
      ∃ y ∈ (filter_duplicate_rows 1 [exT1, exT2]).2, y.1 = x.row) := by
  decide

/-- C4 (code bug evaluated): with two categorical rules, a row that fails
the first rule's membership test but passes the last one is removed from
the qualified output yet never placed in the rejected output — the loop
recomputes the rejected frame from scratch at every rule, so only the
last rule's failures survive. -/
theorem claim4_failing_eval :
    colValIn exTC "town" ["A"] = false ∧
    colValIn exTC "flat_type" ["B"] = true ∧
    filter_categorical_expected_values
      [("town", ["A"]), ("flat_type", ["B"])] 1 [exTC] = ([], []) := by
  decide

/-- C1 counterexample: a batch with one row whose month precedes the
configured minimum yields empty qualified AND failed outputs — the row is
absent from both, so `|qualified| + |failed| = 0 ≠ 1 = |input|`. -/
theorem claim1_counterexample :
    (data_validation exRules 1 (combine_datasets 0 [exRawOut])).1.length +
      (data_validation exRules 1 (combine_datasets 0 [exRawOut])).2.length
      = 0 ∧
    ([exRawOut] : List RawRow).length = 1 := by
  decide

/-- C8 counterexample: on a one-row frame the generated identifier is
"S00103X", which is NOT the concatenation of the four constituents the
claim lists (zero-padded block, last two digits of the group mean, month
number, town initial) — the code prepends a literal "S". -/
theorem claim8_counterexample :
    (get_resale_identifier [exT2]).map (fun x => x.resale_identifier) =
      [some "S00103X"] ∧
    claimResaleIdentifier [exT2] exT2 = "00103X" ∧
    some "S00103X" ≠ some (claimResaleIdentifier [exT2] exT2) := by
  decide

/-- C5 counterexample: a full run over two valid rows that differ only in
street name and price writes two rows to the failed output tagged
"filter_resale_identifier" — a reason outside the claim's four-element
enumeration. -/
theorem claim5_counterexample :
    "filter_resale_identifier" ∈
      full_run_failed_reasons exRules 1
        (combine_datasets 0 [exRawGood, exRawB]) ∧
    "filter_resale_identifier" ∉
      (["filter_null_values", "filter_month_range",
        "filter_categorical_expected_values",
        "filter_duplicate_rows"] : List String) := by
  decide

/-- C9 counterexample: on a valid row the full run assigns
`created_datetime` five times — at ingestion (`combine_datasets`) and at
each of the four stamping stages — not exactly once. -/
theorem claim9_counterexample :
    ∃ x ∈ (data_validation exRules 1 (combine_datasets 0 [exRawGood])).1,
      x.row.stamps =
        ["combine_datasets", "filter_null_values",
         "filter_categorical_expected_values", "get_remaining_lease",
         "filter_duplicate_rows"] ∧
      x.row.stamps.length ≠ 1 ∧ "combine_datasets" ∈ x.row.stamps := by
  decide

theorem filter_categorical_expected_values_empty_frame (rules : CatRules)
    (now : Nat) :
    filter_categorical_expected_values rules now [] = ([], []) := by
  simp only [filter_categorical_expected_values]
  have h : rules.foldl
      (fun (st : List TypedRow × List TypedRow) p =>
        if isStrColumn p.1 && !p.2.isEmpty then
          (st.1.filter (fun r => colValIn r p.1 p.2),
           ([] : List TypedRow).filter (fun r => !colValIn r p.1 p.2))
        else st)
      (([] : List TypedRow), ([] : List TypedRow)) = ([], []) := by
    apply foldl_preserve _ (fun st => st = ([], []))
    · intro st b hst
      subst hst
      by_cases hg : (isStrColumn b.1 && !b.2.isEmpty) = true
      · rw [if_pos hg]
        simp
      · rw [if_neg hg]
    · rfl
  rw [h]
  simp

/-- C6: an unparseable value never raises (the casts are total functions
into `Option`); a raw row any of whose four cast columns comes out null
lands in the failed output of `data_validation` tagged
"filter_null_values", and on its own it produces an empty qualified
output and exactly that one failed row — it is never seen by the
month-range, categorical or duplicate stages. -/
theorem claim6_unparseable_rejected (rules : RuleSet) (now : Nat)
    (df : List RawRow) (r : RawRow) (hr : r ∈ df)
    (hn : hasNullCast (castRow r) = true) :
    (stampC now "filter_null_values" (castRow r), "filter_null_values") ∈
      (data_validation rules now df).2 ∧
    data_validation rules now [r] =
      ([], [(stampC now "filter_null_values" (castRow r),
             "filter_null_values")]) := by
  constructor
  · simp only [data_validation, filter_null_values]
    apply List.mem_append_left
    apply List.mem_append_left
    exact List.mem_map_of_mem _
      (List.mem_filter.mpr ⟨List.mem_map_of_mem castRow hr, hn⟩)
  · have h1 : filter_null_values now [r] =
        ([(stampC now "filter_null_values" (castRow r),
           "filter_null_values")], []) := by
      simp [filter_null_values, hn]
    simp only [data_validation, h1, filter_month_range, List.filter_nil,
      upperCatCols, List.map_nil,
      filter_categorical_expected_values_empty_frame,
      get_remaining_lease, filter_duplicate_rows, sortDescBy,
      uniqueFirstByGo, List.append_nil]

/-- C6 witness: the row with `resale_price="abc"` is rejected with
`reason_for_fail = "filter_null_values"` and reaches no later stage. -/
theorem claim6_witness :
    data_validation exRules 1 [exRawBad] =
      ([], [(stampC 1 "filter_null_values" (castRow exRawBad),
             "filter_null_values")]) :=
  (claim6_unparseable_rejected exRules 1 [exRawBad] exRawBad (by decide)
    (by decide)).2

/-- C10: the group-and-join step of `get_resale_identifier` preserves the
row count exactly, and every output row carries a non-null
`avg_resale_price` (its key comes from the input itself, so the left
join always finds exactly one aggregated group). -/
theorem claim10_join_preserves (df : List TypedRow) :
    (get_resale_identifier df).length = df.length ∧
    ∀ x ∈ get_resale_identifier df, x.avg_resale_price.isSome := by
  have hnd : (group_keys df).Nodup := List.nodup_dedup _
  have hsingle : ∀ r ∈ df,
      (grouped df).filter (fun p => p.1 = (r.month, r.flat_type)) =
        [((r.month, r.flat_type),
          groupMean (group_prices df (r.month, r.flat_type)))] := by
    intro r hr
    have hk : (r.month, r.flat_type) ∈ group_keys df :=
      List.mem_dedup.mpr (List.mem_map_of_mem _ hr)
    exact map_pair_filter_eq _ (group_keys df) hnd _ hk
  constructor
  · simp only [get_resale_identifier]
    apply length_flatMap_singleton
    intro r hr
    rw [hsingle r hr]
    rfl
  · intro x hx
    simp only [get_resale_identifier, List.mem_flatMap] at hx
    rcases hx with ⟨r, hr, hxr⟩
    rw [hsingle r hr] at hxr
    simp only [List.isEmpty_cons, Bool.false_eq_true, if_false,
      List.map_cons, List.map_nil, List.mem_singleton] at hxr
    subst hxr
    rfl

/-- C10 witness: on the one-row frame the join output has one row and its
`avg_resale_price` is populated. -/
theorem claim10_witness :
    (get_resale_identifier [exT2]).length = ([exT2] : List TypedRow).length ∧
    exIdRow.avg_resale_price.isSome :=
  ⟨(claim10_join_preserves [exT2]).1,
   (claim10_join_preserves [exT2]).2 exIdRow (by decide)⟩

/-- C8 amended: every identifier row's `block_num` is the digit-stripped,
zero-padded block; the identifier is the literal "S" followed by the four
constituents (block code, truncated group mean modulo 100 rendered with
no zero-padding, month number, town initial); and the attached digest is
computed over the string representation of the one-field struct
`\x7b'resale_identifier': v\x7d`, not over the bare field value. -/
theorem claim8_amended (sha256hex : String → String) (df : List TypedRow) :
    (∀ x ∈ get_resale_identifier df,
      x.block_num = zfill3 (stripNonDigits x.row.block) ∧
      ∀ q, x.avg_resale_price = some q →
        x.resale_identifier =
          some ("S" ++ zfill3 (stripNonDigits x.row.block) ++
            toString (Int.tmod (castInt64 q) 100) ++
            toString x.row.month.month ++ strSlice1 x.row.town)) ∧
    (∀ u, ∀ y ∈ get_hashed_dataset sha256hex u,
      y.hashed_resale_identifier =
        sha256hex (structReprId y.resale_identifier)) := by
  constructor
  · intro x hx
    simp only [get_resale_identifier, List.mem_flatMap] at hx
    rcases hx with ⟨r, hr, hxr⟩
    by_cases hms :
        ((grouped df).filter
          (fun p => p.1 = (r.month, r.flat_type))).isEmpty = true
    · rw [if_pos hms] at hxr
      have hx1 := List.mem_singleton.mp hxr
      subst hx1
      exact ⟨rfl, fun q hq => by cases hq⟩
    · rw [if_neg hms] at hxr
      rcases List.mem_map.mp hxr with ⟨p, hp, rfl⟩
      refine ⟨rfl, fun q hq => ?_⟩
      cases hq
      rfl
  · intro u y hy
    rcases List.mem_map.mp hy with ⟨z, hz, rfl⟩
    rfl

/-- C8 amended witness: the concrete one-row frame produces identifier
"S00103X" matching the amended format, and the digest input is the struct
representation. -/
theorem claim8_amended_witness :
    exIdRow.resale_identifier =
      some ("S" ++ zfill3 (stripNonDigits exIdRow.row.block) ++
        toString (Int.tmod (castInt64 (350000, 1)) 100) ++
        toString exIdRow.row.month.month ++ strSlice1 exIdRow.row.town) ∧
    ∀ y ∈ get_hashed_dataset (fun s => s) [UniqIdRow.mk exT2 (some "S00103X")],
      y.hashed_resale_identifier =
        "\x7b'resale_identifier': 'S00103X'\x7d" := by
  constructor
  · exact ((claim8_amended (fun s => s) [exT2]).1 exIdRow (by decide)).2
      (350000, 1) (by decide)
  · intro y hy
    have h := (claim8_amended (fun s => s) [exT2]).2
      [UniqIdRow.mk exT2 (some "S00103X")] y hy
    rw [h]
    have hy2 := List.mem_singleton.mp hy
    subst hy2
    rfl

theorem reason_filter_null (now : Nat) (df : List RawRow)
    (p : CastRow × String) (h : p ∈ (filter_null_values now df).1) :
    p.2 = "filter_null_values" := by
  simp only [filter_null_values] at h
  rcases List.mem_map.mp h with ⟨c, hc, rfl⟩
  rfl

theorem reason_filter_categorical (rules : CatRules) (now : Nat)
    (df : List TypedRow) (p : TypedRow × String)
    (h : p ∈ (filter_categorical_expected_values rules now df).2) :
    p.2 = "filter_categorical_expected_values" := by
  simp only [filter_categorical_expected_values] at h
  rcases List.mem_map.mp h with ⟨r, hr, rfl⟩
  rfl

theorem reason_filter_duplicate (now : Nat) (df : List TypedRow)
    (p : TypedRow × String) (h : p ∈ (filter_duplicate_rows now df).2) :
    p.2 = "filter_duplicate_rows" := by
  simp only [filter_duplicate_rows] at h
  rcases List.mem_map.mp h with ⟨x, hx, rfl⟩
  rfl

theorem reason_filter_resale_identifier (df : List TypedRow) (d : DupIdRow)
    (h : d ∈ (filter_resale_identifier df).2) :
    d.reason_for_fail = "filter_resale_identifier" := by
  simp only [filter_resale_identifier] at h
  rcases List.mem_map.mp h with ⟨x, hx, rfl⟩
  rfl

/-- C5 amended: every reason tag written to the failed output over a full
run (validation stage overwrite followed by the transformation's append)
lies in `\x7bfilter_null_values, filter_categorical_expected_values,
filter_duplicate_rows, filter_resale_identifier\x7d`;
"filter_month_range" is never written (out-of-range rows are dropped),
and the transformation appends the extra "filter_resale_identifier" tag. -/
theorem claim5_amended (rules : RuleSet) (now : Nat) (df : List RawRow)
    (s : String) (hs : s ∈ full_run_failed_reasons rules now df) :
    s ∈ (["filter_null_values", "filter_categorical_expected_values",
          "filter_duplicate_rows",
          "filter_resale_identifier"] : List String) := by
  simp only [full_run_failed_reasons] at hs
  rcases List.mem_append.mp hs with h | h
  · rcases List.mem_map.mp h with ⟨p, hp, rfl⟩
    simp only [data_validation] at hp
    rcases List.mem_append.mp hp with h12 | h3
    · rcases List.mem_append.mp h12 with h1 | h2
      · rw [reason_filter_null _ _ _ h1]
        simp
      · rcases List.mem_map.mp h2 with ⟨q, hq, rfl⟩
        rw [show (toCast q.1, q.2).2 = q.2 from rfl,
            reason_filter_categorical _ _ _ _ hq]
        simp
    · rcases List.mem_map.mp h3 with ⟨q, hq, rfl⟩
      rw [show (toCast q.1, q.2).2 = q.2 from rfl,
          reason_filter_duplicate _ _ _ hq]
      simp
  · rcases List.mem_map.mp h with ⟨d, hd, rfl⟩
    rw [reason_filter_resale_identifier _ _ hd]
    simp

/-- C5 amended witness: the run that produces the out-of-enumeration tag
still satisfies the amended enumeration. -/
theorem claim5_amended_witness :
    "filter_resale_identifier" ∈
      (["filter_null_values", "filter_categorical_expected_values",
        "filter_duplicate_rows",
        "filter_resale_identifier"] : List String) :=
  claim5_amended exRules 1 (combine_datasets 0 [exRawGood, exRawB])
    "filter_resale_identifier" (by decide)

theorem stamps_combine (now : Nat) (df : List RawRow) (r1 : RawRow)
    (h : r1 ∈ combine_datasets now df) :
    ∃ r0 ∈ df, r1.stamps = r0.stamps ++ ["combine_datasets"] := by
  simp only [combine_datasets] at h
  rcases List.mem_map.mp h with ⟨r0, hr0, rfl⟩
  exact ⟨r0, hr0, rfl⟩

theorem stamps_filter_null (now : Nat) (df : List RawRow) (x : TypedRow)
    (hx : x ∈ (filter_null_values now df).2) :
    ∃ r ∈ df, x.stamps = r.stamps ++ ["filter_null_values"] := by
  simp only [filter_null_values] at hx
  rcases List.mem_map.mp hx with ⟨t, ht, rfl⟩
  rcases List.mem_filterMap.mp ht with ⟨c, hc, htc⟩
  have hcs := toTyped_stamps c t htc
  rcases List.mem_map.mp (List.mem_of_mem_filter hc) with ⟨r, hr, rfl⟩
  exact ⟨r, hr, by simp [stampT, hcs, castRow]⟩

theorem setStrCol_stamps (r : TypedRow) (c v : String) :
    (setStrCol r c v).stamps = r.stamps := by
  simp only [setStrCol]
  split_ifs <;> rfl

theorem upperFold_stamps (rules : CatRules) :
    ∀ r : TypedRow,
      (rules.foldl (fun acc p =>
        match getStrCol acc p.1 with
        | some v => setStrCol acc p.1 (strToUpper v)
        | none => acc) r).stamps = r.stamps := by
  induction rules with
  | nil => intro r; rfl
  | cons p t ih =>
    intro r
    rw [List.foldl_cons, ih]
    cases hg : getStrCol r p.1 with
    | none => simp [hg]
    | some v => simp [hg, setStrCol_stamps]

theorem stamps_upperCatCols (rules : CatRules) (df : List TypedRow)
    (x : TypedRow) (hx : x ∈ upperCatCols rules df) :
    ∃ y ∈ df, x.stamps = y.stamps := by
  simp only [upperCatCols] at hx
  rcases List.mem_map.mp hx with ⟨y, hy, rfl⟩
  exact ⟨y, hy, upperFold_stamps rules y⟩

theorem stamps_filter_categorical_fst (rules : CatRules) (now : Nat)
    (df : List TypedRow) (x : TypedRow)
    (hx : x ∈ (filter_categorical_expected_values rules now df).1) :
    ∃ y ∈ df,
      x.stamps = y.stamps ++ ["filter_categorical_expected_values"] := by
  simp only [filter_categorical_expected_values] at hx
  rcases List.mem_map.mp hx with ⟨y, hy, rfl⟩
  have hsub := foldl_preserve
    (fun (st : List TypedRow × List TypedRow) p =>
      if isStrColumn p.1 && !p.2.isEmpty then
        (st.1.filter (fun r => colValIn r p.1 p.2),
         df.filter (fun r => !colValIn r p.1 p.2))
      else st)
    (fun st => ∀ z ∈ st.1, z ∈ df)
    (by
      intro st b hst
      dsimp only
      by_cases hg : (isStrColumn b.1 && !b.2.isEmpty) = true
      · rw [if_pos hg]
        intro z hz
        exact hst z (List.mem_of_mem_filter hz)
      · rw [if_neg hg]
        exact hst)
    rules (df, ([] : List TypedRow)) (fun z hz => hz)
  exact ⟨y, hsub y hy, by simp [stampT]⟩

theorem stamps_get_remaining_lease (bound : Int) (now : Nat)
    (df : List TypedRow) (x : TypedRow)
    (hx : x ∈ get_remaining_lease bound now df) :
    ∃ y ∈ df, x.stamps = y.stamps ++ ["get_remaining_lease"] := by
  simp only [get_remaining_lease] at hx
  rcases List.mem_map.mp hx with ⟨y, hy, rfl⟩
  exact ⟨y, hy, rfl⟩

theorem stamps_filter_duplicate_fst (now : Nat) (df : List TypedRow)
    (x : KeyedRow) (hx : x ∈ (filter_duplicate_rows now df).1) :
    ∃ y ∈ df, x.row.stamps = y.stamps ++ ["filter_duplicate_rows"] := by
  simp only [filter_duplicate_rows] at hx
  rcases List.mem_map.mp hx with ⟨u, hu, rfl⟩
  have hu2 := mem_of_mem_uniqueFirstByGo (fun x : KeyedRow => x.composite_key)
    [] _ u hu
  have hu3 := (sortDescBy_perm (fun x : KeyedRow => x.row.resale_price)
    (df.map (fun r => KeyedRow.mk r (compositeKey r)))).mem_iff.mp hu2
  rcases List.mem_map.mp hu3 with ⟨y, hy, rfl⟩
  exact ⟨y, hy, by simp [stampT]⟩

/-- C9 amended: `created_datetime` is assigned at INGESTION and then
re-assigned by every stamping stage the row passes; a row reaching the
qualified output has been stamped exactly five times, in pipeline order
(ingestion, null filter, categorical filter, lease computation,
deduplication) — its final value comes from the finalizing stage, but the
write is not unique and ingestion does assign it. -/
theorem claim9_amended (rules : RuleSet) (now0 now : Nat)
    (df0 : List RawRow) (h0 : ∀ r ∈ df0, r.stamps = []) :
    ∀ x ∈ (data_validation rules now (combine_datasets now0 df0)).1,
      x.row.stamps =
        ["combine_datasets", "filter_null_values",
         "filter_categorical_expected_values", "get_remaining_lease",
         "filter_duplicate_rows"] := by
  intro x hx
  simp only [data_validation] at hx
  rcases stamps_filter_duplicate_fst _ _ _ hx with ⟨y5, hy5, he5⟩
  rcases stamps_get_remaining_lease _ _ _ _ hy5 with ⟨y4, hy4, he4⟩
  rcases stamps_filter_categorical_fst _ _ _ _ hy4 with ⟨y3, hy3, he3⟩
  rcases stamps_upperCatCols _ _ _ hy3 with ⟨y2, hy2, he2⟩
  simp only [filter_month_range] at hy2
  rcases stamps_filter_null _ _ _ (List.mem_of_mem_filter hy2) with
    ⟨r1, hr1, he1⟩
  rcases stamps_combine _ _ _ hr1 with ⟨r0, hr0, he0⟩
  rw [he5, he4, he3, he2, he1, he0, h0 r0 hr0]
  rfl

/-- C9 amended witness: the concrete qualified row of the `exRawGood` run
carries exactly the five-stage stamp trace. -/
theorem claim9_amended_witness :
    (KeyedRow.mk exQRowT (compositeKey exQRowT)).row.stamps =
      ["combine_datasets", "filter_null_values",
       "filter_categorical_expected_values", "get_remaining_lease",
       "filter_duplicate_rows"] :=
  claim9_amended exRules 0 1 [exRawGood] (by decide)
    (KeyedRow.mk exQRowT (compositeKey exQRowT)) (by decide)

theorem filter_null_values_length (now : Nat) (df : List RawRow) :
    (filter_null_values now df).1.length +
      (filter_null_values now df).2.length = df.length := by
  simp only [filter_null_values, List.length_map]
  rw [length_filterMap_all toTyped _
    (fun c hc => toTyped_isSome_of_not_null c
      (by simpa using (List.mem_filter.mp hc).2))]
  have h := length_filter_split (fun c => hasNullCast c) (df.map castRow)
  simp only [List.length_map] at h
  exact h

theorem filter_categorical_single_length (c : String) (vs : List String)
    (now : Nat) (df : List TypedRow) (hc : isStrColumn c = true)
    (hvs : vs ≠ []) :
    (filter_categorical_expected_values [(c, vs)] now df).1.length +
      (filter_categorical_expected_values [(c, vs)] now df).2.length =
      df.length := by
  have hg : (isStrColumn (c, vs).1 && !(c, vs).2.isEmpty) = true := by
    simp [hc, hvs]
  simp only [filter_categorical_expected_values, List.foldl_cons,
    List.foldl_nil]
  rw [if_pos hg]
  simp only [List.length_map]
  exact length_filter_split_not (fun r => colValIn r c vs) df

theorem filter_duplicate_rows_of_nodup (now : Nat) (df : List TypedRow)
    (h : (df.map compositeKey).Nodup) :
    (filter_duplicate_rows now df).1.length = df.length ∧
    (filter_duplicate_rows now df).2 = [] := by
  simp only [filter_duplicate_rows]
  have hkmap : (df.map (fun r => KeyedRow.mk r (compositeKey r))).map
      (fun x : KeyedRow => x.composite_key) = df.map compositeKey := by
    rw [List.map_map]
    rfl
  have hnd1 : ((df.map (fun r => KeyedRow.mk r (compositeKey r))).map
      (fun x : KeyedRow => x.composite_key)).Nodup := by
    rw [hkmap]
    exact h
  have hperm := sortDescBy_perm (fun x : KeyedRow => x.row.resale_price)
    (df.map (fun r => KeyedRow.mk r (compositeKey r)))
  have hnd2 : ((sortDescBy (fun x : KeyedRow => x.row.resale_price)
      (df.map (fun r => KeyedRow.mk r (compositeKey r)))).map
      (fun x : KeyedRow => x.composite_key)).Nodup :=
    ((hperm.map _).nodup_iff).mpr hnd1
  have huniq := uniqueFirstByGo_of_nodup
    (fun x : KeyedRow => x.composite_key) []
    (sortDescBy (fun x : KeyedRow => x.row.resale_price)
      (df.map (fun r => KeyedRow.mk r (compositeKey r))))
    hnd2 (fun x _ => List.not_mem_nil _)
  constructor
  · rw [List.length_map, huniq, hperm.length_eq, List.length_map]
  · have hdup : (sortDescBy (fun x : KeyedRow => x.row.resale_price)
        (df.map (fun r => KeyedRow.mk r (compositeKey r)))).filter
        (fun x => 2 ≤ ((sortDescBy
            (fun x : KeyedRow => x.row.resale_price)
            (df.map (fun r => KeyedRow.mk r (compositeKey r)))).filter
          (fun y => y.composite_key = x.composite_key)).length) = [] := by
      rw [List.filter_eq_nil_iff]
      intro x hx h2
      have hle := filter_key_length_le_one
        (fun y : KeyedRow => y.composite_key) _ hnd2 x.composite_key
      have h2' : 2 ≤ ((sortDescBy
          (fun x : KeyedRow => x.row.resale_price)
          (df.map (fun r => KeyedRow.mk r (compositeKey r)))).filter
        (fun y => y.composite_key = x.composite_key)).length := by
        simpa using h2
      omega
    rw [hdup]
    rfl

/-- C1 amended: `|qualified| + |failed| = |input|` holds only under side
conditions the source does not guarantee in general: every
successfully-cast row's month must lie in the configured range (otherwise
`filter_month_range` drops it from both outputs), exactly one well-formed
categorical rule may be declared (with several rules, a row failing an
earlier rule but passing the last vanishes), and the composite keys
reaching deduplication must be pairwise distinct (otherwise the survivor
of a duplicated key is counted in both outputs). -/
theorem claim1_amended (rules : RuleSet) (now : Nat) (df : List RawRow)
    (c : String) (vs : List String)
    (hrules : rules.categorical = [(c, vs)])
    (hc : isStrColumn c = true) (hvs : vs ≠ [])
    (hm : filter_month_range rules.minMonth rules.maxMonth
        (filter_null_values now df).2 = (filter_null_values now df).2)
    (hk : ((get_remaining_lease rules.leaseMax now
        (filter_categorical_expected_values rules.categorical now
          (upperCatCols rules.categorical
            (filter_month_range rules.minMonth rules.maxMonth
              (filter_null_values now df).2))).1).map compositeKey).Nodup) :
    (data_validation rules now df).1.length +
      (data_validation rules now df).2.length = df.length := by
  simp only [data_validation, List.length_append, List.length_map]
  rcases filter_duplicate_rows_of_nodup now _ hk with ⟨hd1, hd2⟩
  rw [hd1, hd2]
  have hlease : (get_remaining_lease rules.leaseMax now
      (filter_categorical_expected_values rules.categorical now
        (upperCatCols rules.categorical
          (filter_month_range rules.minMonth rules.maxMonth
            (filter_null_values now df).2))).1).length =
      (filter_categorical_expected_values rules.categorical now
        (upperCatCols rules.categorical
          (filter_month_range rules.minMonth rules.maxMonth
            (filter_null_values now df).2))).1.length := by
    simp [get_remaining_lease]
  have hcat := filter_categorical_single_length c vs now
    (upperCatCols rules.categorical
      (filter_month_range rules.minMonth rules.maxMonth
        (filter_null_values now df).2)) hc hvs
  rw [← hrules] at hcat
  have hupper : (upperCatCols rules.categorical
      (filter_month_range rules.minMonth rules.maxMonth
        (filter_null_values now df).2)).length =
      (filter_null_values now df).2.length := by
    rw [upperCatCols, List.length_map, hm]
  have hnull := filter_null_values_length now df
  simp only [List.length_nil]
  omega

/-- C1 amended witness: on the concrete one-row batch all side conditions
hold and `|qualified| + |failed| = 1 = |input|`. -/
theorem claim1_amended_witness :
    (data_validation exRules 1 [exRawGood]).1.length +
      (data_validation exRules 1 [exRawGood]).2.length =
      ([exRawGood] : List RawRow).length :=
  claim1_amended exRules 1 [exRawGood] "town" ["A TOWN"] rfl (by decide)
    (by decide) (by decide) (by decide)

theorem filter_duplicate_rows_fst_filter (now : Nat) (df : List TypedRow)
    (k : String) :
    (filter_duplicate_rows now df).1.filter
      (fun x => x.composite_key = k) =
      ((sortDescBy (fun x : KeyedRow => x.row.resale_price)
        ((df.filter (fun r => compositeKey r = k)).map
          (fun r => KeyedRow.mk r (compositeKey r)))).take 1).map
        (fun x => KeyedRow.mk (stampT now "filter_duplicate_rows" x.row)
          x.composite_key) := by
  simp only [filter_duplicate_rows]
  rw [List.filter_map]
  have hpred : ((fun x : KeyedRow => decide (x.composite_key = k)) ∘
      (fun x : KeyedRow => KeyedRow.mk
        (stampT now "filter_duplicate_rows" x.row) x.composite_key)) =
      (fun x : KeyedRow => decide (x.composite_key = k)) := rfl
  rw [hpred]
  have h2 := uniqueFirstByGo_filter_of_not_mem
    (fun x : KeyedRow => x.composite_key) k []
    (sortDescBy (fun x : KeyedRow => x.row.resale_price)
      (df.map (fun r => KeyedRow.mk r (compositeKey r))))
    (List.not_mem_nil k)
  simp only [h2]
  rw [filter_sortDescBy]
  have h4 := filter_map_mk
    (fun x : KeyedRow => decide (x.composite_key = k))
    (fun r : TypedRow => decide (compositeKey r = k)) (fun r => rfl) df
  rw [h4]

theorem sortDesc_group_head (G : List TypedRow) (hne : G ≠ []) :
    ∃ s ∈ G, (∀ r ∈ G, r.resale_price ≤ s.resale_price) ∧
      (G.filter (fun r => r.resale_price = s.resale_price)).head? =
        some s ∧
      (sortDescBy (fun x : KeyedRow => x.row.resale_price)
        (G.map (fun r => KeyedRow.mk r (compositeKey r)))).take 1 =
        [KeyedRow.mk s (compositeKey s)] := by
  have hGKne : G.map (fun r => KeyedRow.mk r (compositeKey r)) ≠ [] := by
    simpa using hne
  have hperm := sortDescBy_perm (fun x : KeyedRow => x.row.resale_price)
    (G.map (fun r => KeyedRow.mk r (compositeKey r)))
  have hsorted := sortDescBy_sorted
    (fun x : KeyedRow => x.row.resale_price)
    (G.map (fun r => KeyedRow.mk r (compositeKey r)))
  have hSne : sortDescBy (fun x : KeyedRow => x.row.resale_price)
      (G.map (fun r => KeyedRow.mk r (compositeKey r))) ≠ [] := by
    intro h0
    have hl := hperm.length_eq
    rw [h0] at hl
    exact hGKne (List.length_eq_zero.mp hl.symm)
  obtain ⟨s0, S2, hS⟩ := List.exists_cons_of_ne_nil hSne
  have hs0S : s0 ∈ sortDescBy (fun x : KeyedRow => x.row.resale_price)
      (G.map (fun r => KeyedRow.mk r (compositeKey r))) := by
    rw [hS]
    exact List.mem_cons_self _ _
  rcases List.mem_map.mp (hperm.mem_iff.mp hs0S) with ⟨s, hsG, hmks⟩
  have hs0row : s0.row = s := by rw [← hmks]
  have hmax : ∀ r ∈ G, r.resale_price ≤ s.resale_price := by
    intro r hr
    have hmem : KeyedRow.mk r (compositeKey r) ∈
        sortDescBy (fun x : KeyedRow => x.row.resale_price)
          (G.map (fun r => KeyedRow.mk r (compositeKey r))) :=
      hperm.mem_iff.mpr (List.mem_map_of_mem _ hr)
    rw [hS] at hmem
    rcases List.mem_cons.mp hmem with he | hmem2
    · have hr2 : r = s := by
        have h6 := congrArg KeyedRow.row he
        simpa [hs0row] using h6
      rw [hr2]
    · have h5 := (List.pairwise_cons.mp (hS ▸ hsorted)).1
        (KeyedRow.mk r (compositeKey r)) hmem2
      rw [hs0row] at h5
      exact h5
  have hqp0 : (fun x : KeyedRow =>
      decide (x.row.resale_price = s.resale_price)) s0 = true := by
    simp [hs0row]
  have hstab : (sortDescBy (fun x : KeyedRow => x.row.resale_price)
      (G.map (fun r => KeyedRow.mk r (compositeKey r)))).filter
      (fun x : KeyedRow => x.row.resale_price = s.resale_price) =
      (G.map (fun r => KeyedRow.mk r (compositeKey r))).filter
        (fun x : KeyedRow => x.row.resale_price = s.resale_price) := by
    rw [filter_sortDescBy]
    exact sortDescBy_const _ _ s.resale_price
      (fun x hx => by simpa using (List.mem_filter.mp hx).2)
  have hSf : (sortDescBy (fun x : KeyedRow => x.row.resale_price)
      (G.map (fun r => KeyedRow.mk r (compositeKey r)))).filter
      (fun x : KeyedRow => x.row.resale_price = s.resale_price) =
      s0 :: S2.filter
        (fun x : KeyedRow => x.row.resale_price = s.resale_price) := by
    rw [hS, List.filter_cons, if_pos hqp0]
  have h7 := filter_map_mk
    (fun x : KeyedRow => decide (x.row.resale_price = s.resale_price))
    (fun r : TypedRow => decide (r.resale_price = s.resale_price))
    (fun r => rfl) G
  have hGmap : (G.filter
      (fun r => r.resale_price = s.resale_price)).map
      (fun r => KeyedRow.mk r (compositeKey r)) =
      s0 :: S2.filter
        (fun x : KeyedRow => x.row.resale_price = s.resale_price) := by
    rw [← h7, ← hstab, hSf]
  cases hGf : G.filter (fun r => r.resale_price = s.resale_price) with
  | nil =>
    rw [hGf] at hGmap
    exact absurd hGmap (by simp)
  | cons r0 rest =>
    rw [hGf, List.map_cons] at hGmap
    injection hGmap with h8 h9
    have hr0s : r0 = s := by
      have h10 := congrArg KeyedRow.row h8
      simpa [hs0row] using h10
    refine ⟨s, hsG, hmax, ?_, ?_⟩
    · rw [hGf, hr0s]
      rfl
    · rw [hS]
      simp only [List.take_succ_cons, List.take_zero]
      rw [← hmks]

/-- C3: for every composite-key group present in the deduplicator's input,
exactly one row of the group appears in the qualified output; it is a row
of maximal `resale_price` in the group, and among the rows tying on that
maximum it is the one earliest in the input order (the sort is stable and
`unique(keep="first")` retains the first row per key). -/
theorem claim3_dedup_survivor (now : Nat) (df : List TypedRow) (k : String)
    (hg : df.filter (fun r => compositeKey r = k) ≠ []) :
    ∃ s ∈ df.filter (fun r => compositeKey r = k),
      (∀ r ∈ df.filter (fun r => compositeKey r = k),
        r.resale_price ≤ s.resale_price) ∧
      ((df.filter (fun r => compositeKey r = k)).filter
        (fun r => r.resale_price = s.resale_price)).head? = some s ∧
      ((filter_duplicate_rows now df).1.filter
        (fun x => x.composite_key = k)).map (fun x => x.row) =
        [stampT now "filter_duplicate_rows" s] := by
  obtain ⟨s, hsG, hmax, htie, htake⟩ :=
    sortDesc_group_head (df.filter (fun r => compositeKey r = k)) hg
  refine ⟨s, hsG, hmax, htie, ?_⟩
  rw [filter_duplicate_rows_fst_filter, htake]
  rfl

/-- C3 witness: on the two-row group with prices 300000 and 350000 the
single survivor is the 350000 row. -/
theorem claim3_witness :
    ((filter_duplicate_rows 1 [exT1, exT2]).1.filter
      (fun x => x.composite_key = compositeKey exT1)).map
      (fun x => x.row) =
      [stampT 1 "filter_duplicate_rows" exT2] := by
  obtain ⟨s, hs, hmax, hhead, hout⟩ :=
    claim3_dedup_survivor 1 [exT1, exT2] (compositeKey exT1) (by decide)
  have hsmem : s ∈ ([exT1, exT2] : List TypedRow) :=
    List.mem_of_mem_filter hs
  rcases (by simpa using hsmem : s = exT1 ∨ s = exT2) with rfl | rfl
  · exact absurd (hmax exT2 (by decide)) (by decide)
  · exact hout

end HousingETL
